import Mathlib

/-!
Shallow embedding of the connection-lifecycle and matchmaking core of the
repository (primary variant: `src/server.js`; the near-duplicate variants
`src/index.js`, `src/unnamed/part_000`, `src/unnamed/part_001` implement the
same logic).  Preference payloads are modelled as records of strings, where
the empty string plays the role of a missing/empty (falsy) JavaScript value.
-/

/-- Preference payload attached by a client when it asks to be matched:
`gender`, `partnerPreference` (`"same"` or anything else, treated as `any`),
and an optional free-form `interest` (empty string when unset).  Mirrors the
`payload` object read by `isCompatible` in `src/server.js`. -/
structure Prefs where
  gender : String
  partnerPreference : String
  interest : String
deriving DecidableEq, Repr

/-- A waiting-pool entry `{ id, payload }` as built by the `'waiting'` handler
in `src/server.js` (`const newUser = { id: clientId, payload: data.payload }`). -/
structure User where
  id : String
  payload : Prefs
deriving DecidableEq, Repr

/-- Embedding of `isCompatible` from `src/server.js` lines 28-51, keeping the
nested early-return structure of the source: Rule 1 returns `false` when both
interests are truthy (non-empty) and differ; otherwise Rule 2 performs the
two-way gender check. -/
def isCompatible (userA userB : User) : Bool :=
  let prefsA := userA.payload
  let prefsB := userB.payload
  if prefsA.interest != "" && prefsB.interest != "" then
    if prefsA.interest != prefsB.interest then
      false
    else
      let userAWants := if prefsA.partnerPreference == "same" then prefsA.gender else "any"
      let userBWants := if prefsB.partnerPreference == "same" then prefsB.gender else "any"
      let aIsHappy := userAWants == "any" || userAWants == prefsB.gender
      let bIsHappy := userBWants == "any" || userBWants == prefsA.gender
      aIsHappy && bIsHappy
  else
    let userAWants := if prefsA.partnerPreference == "same" then prefsA.gender else "any"
    let userBWants := if prefsB.partnerPreference == "same" then prefsB.gender else "any"
    let aIsHappy := userAWants == "any" || userAWants == prefsB.gender
    let bIsHappy := userBWants == "any" || userBWants == prefsA.gender
    aIsHappy && bIsHappy

/-- Modelled from the spec: each side's wanted gender, `"same"` preference
giving the own gender and anything else the wildcard `"any"` (spec §4.2,
compatibility rule 2). -/
def wantedGender (p : Prefs) : String :=
  if p.partnerPreference == "same" then p.gender else "any"

/-- Modelled from the spec: the compatibility predicate as the spec words it —
incompatible when both interests are non-empty and differ, otherwise mutual
satisfaction of the wanted genders (spec §4.2, rules 1-3). -/
def specCompatible (userA userB : User) : Bool :=
  if userA.payload.interest != "" && userB.payload.interest != "" &&
      userA.payload.interest != userB.payload.interest then
    false
  else
    (wantedGender userA.payload == "any" || wantedGender userA.payload == userB.payload.gender) &&
    (wantedGender userB.payload == "any" || wantedGender userB.payload == userA.payload.gender)

lemma strBeq_comm (a b : String) : (a == b) = (b == a) := by
  by_cases h : a = b
  · subst h; rfl
  · have h1 : (a == b) = false := beq_eq_false_iff_ne.mpr h
    have h2 : (b == a) = false := beq_eq_false_iff_ne.mpr (Ne.symm h)
    rw [h1, h2]

lemma strBne_comm (a b : String) : (a != b) = (b != a) := by
  simp only [bne]
  rw [strBeq_comm]

lemma isCompatible_eq_specCompatible (A B : User) :
    isCompatible A B = specCompatible A B := by
  unfold isCompatible specCompatible wantedGender
  cases ha : (A.payload.interest != "") <;>
    cases hb : (B.payload.interest != "") <;>
      cases hc : (A.payload.interest != B.payload.interest) <;>
        simp [ha, hb, hc]

lemma specCompatible_comm (A B : User) :
    specCompatible A B = specCompatible B A := by
  unfold specCompatible
  rw [strBne_comm A.payload.interest B.payload.interest,
      Bool.and_comm (A.payload.interest != "") (B.payload.interest != ""),
      Bool.and_comm
        (wantedGender A.payload == "any" || wantedGender A.payload == B.payload.gender)
        (wantedGender B.payload == "any" || wantedGender B.payload == A.payload.gender)]

lemma isCompatible_self (A : User) : isCompatible A A = true := by
  rw [isCompatible_eq_specCompatible]
  unfold specCompatible wantedGender
  cases h : (A.payload.partnerPreference == "same") <;> simp [h]

/-- C1: `isCompatible(A,B)` is `false` when both interests are non-empty and
differ, and otherwise is `true` exactly when A's wanted gender (own gender
under the `same` preference, else the wildcard `"any"`) is the wildcard or
equals B's gender, and symmetrically for B — i.e. the source predicate agrees
with the spec-worded predicate on every pair of preference payloads. -/
theorem isCompatible_matches_spec (A B : User) :
    isCompatible A B = specCompatible A B :=
  isCompatible_eq_specCompatible A B

/-- C10: the compatibility predicate is symmetric — the interest rule and the
mutual gender-satisfaction conjunction treat the two arguments
interchangeably. -/
theorem isCompatible_symm (A B : User) :
    isCompatible A B = isCompatible B A := by
  rw [isCompatible_eq_specCompatible, isCompatible_eq_specCompatible,
      specCompatible_comm]

/-- Per-connection mutable state held on the socket object in `src/server.js`:
`partnerId` (`ws.partnerId`) and whether the socket is open
(`ws.readyState === WebSocket.OPEN`). -/
structure Conn where
  partnerId : Option String
  isOpen : Bool
deriving DecidableEq, Repr

/-- Lookup in the `clients` map (`clients.get(id)`), reading the first
binding; the JavaScript `Map` has unique keys. -/
def mapGet (m : List (String × Conn)) (k : String) : Option Conn :=
  match m with
  | [] => none
  | (k2, v) :: rest => if k2 = k then some v else mapGet rest k

/-- `clients.set(id, ws)`: replace the first binding for `k`, or append a new
binding when `k` is absent. -/
def mapSet (m : List (String × Conn)) (k : String) (v : Conn) : List (String × Conn) :=
  match m with
  | [] => [(k, v)]
  | (k2, v2) :: rest => if k2 = k then (k, v) :: rest else (k2, v2) :: mapSet rest k v

/-- `clients.delete(id)`: remove the first binding for `k`. -/
def mapDelete (m : List (String × Conn)) (k : String) : List (String × Conn) :=
  match m with
  | [] => []
  | (k2, v2) :: rest => if k2 = k then rest else (k2, v2) :: mapDelete rest k

/-- In-place mutation of the connection object stored under `k`
(e.g. `ws.partnerId = ...` on the object returned by `clients.get`). -/
def mapUpdate (m : List (String × Conn)) (k : String) (f : Conn → Conn) :
    List (String × Conn) :=
  match m with
  | [] => []
  | (k2, v2) :: rest => if k2 = k then (k2, f v2) :: rest else (k2, v2) :: mapUpdate rest k f

/-- An inbound client message as parsed by the `'message'` handler: a `type`
tag (empty string standing for a missing/falsy `data.type`), the preference
`payload` used by the `'waiting'` branch, the relay target `to`, any
client-supplied `from` field, and the rest of the message treated as an
opaque `body`. -/
structure InMsg where
  type : String
  payload : Prefs
  toId : String
  fromField : Option String
  body : String
deriving DecidableEq, Repr

/-- Outbound messages produced by the server: the `welcome` notice, the
`paired` notice with its `partnerId` and `isInitiator` fields, the
`disconnected` notice, and a relayed client message forwarded verbatim
(after the server overwrote its `from` field). -/
inductive OutMsg where
  | welcome (id : String)
  | paired (partnerId : String) (isInitiator : Bool)
  | disconnected (fromId : String)
  | relayed (data : InMsg)
deriving DecidableEq, Repr

/-- A delivery instruction: send `msg` to the connection `to`. -/
structure Delivery where
  toId : String
  msg : OutMsg
deriving DecidableEq, Repr

/-- The server's global mutable state: the `clients` map and the
`waitingUsers` list of `src/server.js`. -/
structure ServerState where
  clients : List (String × Conn)
  waitingUsers : List User
deriving DecidableEq, Repr

/-- The relayable message types of `src/server.js` line 132. -/
def relayTypes : List String :=
  ["offer", "answer", "iceCandidate", "disconnected", "message", "toggleVideo", "toggleAudio"]

/-- The `for` loop of the `'waiting'` branch (`src/server.js` lines 80-86):
scan the waiting list in order and stop at the first compatible candidate,
returning it together with its index. -/
def findPartnerAux (newUser : User) (pool : List User) (i : Nat) : Option (User × Nat) :=
  match pool with
  | [] => none
  | u :: rest =>
    if isCompatible newUser u then some (u, i) else findPartnerAux newUser rest (i + 1)

/-- The partner search over the whole waiting list, starting at index 0. -/
def findPartner (newUser : User) (pool : List User) : Option (User × Nat) :=
  findPartnerAux newUser pool 0

/-- The `'waiting'` branch of the `'message'` handler (`src/server.js`
lines 74-125): find the first compatible waiting user; on success splice it
out, and if its connection is present and open commit the pairing and emit
the two `paired` notices, otherwise (stale partner) delete the closed
connection and append the entrant to the waiting list; when no candidate is
found, append the entrant to the waiting list with no delivery. -/
def handleWaiting (s : ServerState) (clientId : String) (payload : Prefs) :
    ServerState × List Delivery :=
  let newUser : User := ⟨clientId, payload⟩
  match findPartner newUser s.waitingUsers with
  | some (partner, partnerIndex) =>
    let pool1 := s.waitingUsers.eraseIdx partnerIndex
    match mapGet s.clients partner.id with
    | some partnerWs =>
      if partnerWs.isOpen then
        let clients1 := mapUpdate s.clients clientId
          (fun c => { c with partnerId := some partner.id })
        let clients2 := mapUpdate clients1 partner.id
          (fun c => { c with partnerId := some clientId })
        (⟨clients2, pool1⟩,
          [⟨partner.id, OutMsg.paired clientId true⟩,
           ⟨clientId, OutMsg.paired partner.id false⟩])
      else
        (⟨mapDelete s.clients partner.id, pool1 ++ [newUser]⟩, [])
    | none =>
      (⟨s.clients, pool1 ++ [newUser]⟩, [])
  | none =>
    (⟨s.clients, s.waitingUsers ++ [newUser]⟩, [])

/-- The `'message'` handler (`src/server.js` lines 63-143): a missing type
throws and is caught (no state change, no delivery); a `'waiting'` message
runs the matchmaking branch; a relayable type looks up the target and, when
it is present and open, forwards the message with `from` overwritten by the
sender's id. -/
def handleMessage (s : ServerState) (clientId : String) (data : InMsg) :
    ServerState × List Delivery :=
  if data.type = "" then
    (s, [])
  else
    let r1 := if data.type = "waiting" then handleWaiting s clientId data.payload else (s, [])
    let s1 := r1.1
    let d2 : List Delivery :=
      if relayTypes.contains data.type then
        match mapGet s1.clients data.toId with
        | some target =>
          if target.isOpen then
            [⟨data.toId, OutMsg.relayed { data with fromField := some clientId }⟩]
          else []
        | none => []
      else []
    (s1, r1.2 ++ d2)

/-- The `'connection'` handler (`src/server.js` lines 54-61): register the
fresh socket with no partner and send the `welcome` notice. -/
def handleConnection (s : ServerState) (clientId : String) :
    ServerState × List Delivery :=
  (⟨mapSet s.clients clientId ⟨none, true⟩, s.waitingUsers⟩,
   [⟨clientId, OutMsg.welcome clientId⟩])

/-- The `'close'` handler (`src/server.js` lines 145-160): remove the leaver
from `clients` and filter it out of `waitingUsers`; if it was paired and the
partner is still present, send the partner one `disconnected` notice and
clear the partner's `partnerId`. -/
def handleClose (s : ServerState) (clientId : String) :
    ServerState × List Delivery :=
  let wsPartner : Option String :=
    match mapGet s.clients clientId with
    | some c => c.partnerId
    | none => none
  let clients1 := mapDelete s.clients clientId
  let pool1 := s.waitingUsers.filter (fun u => u.id != clientId)
  match wsPartner with
  | some pid =>
    match mapGet clients1 pid with
    | some _ =>
      (⟨mapUpdate clients1 pid (fun c => { c with partnerId := none }), pool1⟩,
       [⟨pid, OutMsg.disconnected clientId⟩])
    | none => (⟨clients1, pool1⟩, [])
  | none => (⟨clients1, pool1⟩, [])

/-- Transport-level events reaching the server: a new socket connection
(Join), an inbound message (EnterWaiting / Relay / anything else), and a
socket close (Leave). -/
inductive Event where
  | connect (id : String)
  | message (id : String) (data : InMsg)
  | close (id : String)
deriving DecidableEq, Repr

/-- Dispatch one event to its handler. -/
def step (s : ServerState) (e : Event) : ServerState × List Delivery :=
  match e with
  | .connect id => handleConnection s id
  | .message id data => handleMessage s id data
  | .close id => handleClose s id

/-- Run a sequence of events from a state, accumulating the emitted
deliveries in order. -/
def runTrace (s : ServerState) : List Event → ServerState × List Delivery
  | [] => (s, [])
  | e :: rest =>
    let r1 := step s e
    let r2 := runTrace r1.1 rest
    (r2.1, r1.2 ++ r2.2)

/-- The empty initial state of the server. -/
def initState : ServerState := ⟨[], []⟩

lemma mapGet_mapUpdate_self (m : List (String × Conn)) (k : String) (f : Conn → Conn) :
    mapGet (mapUpdate m k f) k = (mapGet m k).map f := by
  induction m with
  | nil => rfl
  | cons kv rest ih =>
    obtain ⟨k2, v2⟩ := kv
    by_cases h : k2 = k
    · simp [mapUpdate, mapGet, h]
    · simp [mapUpdate, mapGet, h, ih]

lemma mapGet_mapUpdate_ne (m : List (String × Conn)) (k k2 : String) (f : Conn → Conn)
    (h : k2 ≠ k) : mapGet (mapUpdate m k f) k2 = mapGet m k2 := by
  induction m with
  | nil => rfl
  | cons kv rest ih =>
    obtain ⟨k3, v3⟩ := kv
    by_cases h3 : k3 = k
    · subst h3
      simp [mapUpdate, mapGet, Ne.symm h]
    · simp only [mapUpdate, if_neg h3, mapGet]
      by_cases h4 : k3 = k2
      · simp [h4]
      · simp [h4, ih]

lemma mapGet_mapDelete_ne (m : List (String × Conn)) (k k2 : String)
    (h : k2 ≠ k) : mapGet (mapDelete m k) k2 = mapGet m k2 := by
  induction m with
  | nil => rfl
  | cons kv rest ih =>
    obtain ⟨k3, v3⟩ := kv
    by_cases h3 : k3 = k
    · subst h3
      simp [mapDelete, mapGet, Ne.symm h]
    · simp only [mapDelete, if_neg h3, mapGet]
      by_cases h4 : k3 = k2
      · simp [h4]
      · simp [h4, ih]

lemma mapGet_eq_none_of_not_mem (m : List (String × Conn)) (k : String)
    (h : k ∉ m.map Prod.fst) : mapGet m k = none := by
  induction m with
  | nil => rfl
  | cons kv rest ih =>
    obtain ⟨k2, v2⟩ := kv
    simp only [List.map_cons, List.mem_cons] at h
    push_neg at h
    simp [mapGet, Ne.symm h.1, ih h.2]

lemma mapGet_mapDelete_self (m : List (String × Conn)) (k : String)
    (hnd : (m.map Prod.fst).Nodup) : mapGet (mapDelete m k) k = none := by
  induction m with
  | nil => rfl
  | cons kv rest ih =>
    obtain ⟨k2, v2⟩ := kv
    simp only [List.map_cons, List.nodup_cons] at hnd
    by_cases h : k2 = k
    · subst h
      simp only [mapDelete, if_pos rfl]
      exact mapGet_eq_none_of_not_mem rest k2 hnd.1
    · simp [mapDelete, mapGet, h, ih hnd.2]

lemma keys_mapUpdate (m : List (String × Conn)) (k : String) (f : Conn → Conn) :
    (mapUpdate m k f).map Prod.fst = m.map Prod.fst := by
  induction m with
  | nil => rfl
  | cons kv rest ih =>
    obtain ⟨k2, v2⟩ := kv
    by_cases h : k2 = k
    · simp [mapUpdate, h]
    · simp [mapUpdate, h, ih]

lemma mapDelete_sublist (m : List (String × Conn)) (k : String) :
    List.Sublist (mapDelete m k) m := by
  induction m with
  | nil => exact List.Sublist.refl []
  | cons kv rest ih =>
    obtain ⟨k2, v2⟩ := kv
    by_cases h : k2 = k
    · simp only [mapDelete, if_pos h]
      exact List.sublist_cons_self (k2, v2) rest
    · simpa [mapDelete, h] using List.Sublist.cons₂ (k2, v2) ih

lemma keys_mapDelete_nodup (m : List (String × Conn)) (k : String)
    (hnd : (m.map Prod.fst).Nodup) : ((mapDelete m k).map Prod.fst).Nodup :=
  hnd.sublist ((mapDelete_sublist m k).map Prod.fst)

lemma mem_keys_mapSet (m : List (String × Conn)) (k : String) (v : Conn) (a : String)
    (h : a ∈ (mapSet m k v).map Prod.fst) : a ∈ m.map Prod.fst ∨ a = k := by
  induction m with
  | nil =>
    simp [mapSet] at h
    exact Or.inr h
  | cons kv rest ih =>
    obtain ⟨k2, v2⟩ := kv
    by_cases hk : k2 = k
    · simp only [mapSet, if_pos hk, List.map_cons, List.mem_cons] at h
      rcases h with rfl | h
      · exact Or.inr rfl
      · exact Or.inl (by simp [h])
    · simp only [mapSet, if_neg hk, List.map_cons, List.mem_cons] at h
      rcases h with rfl | h
      · exact Or.inl (by simp)
      · rcases ih h with h2 | h2
        · exact Or.inl (by simp [h2])
        · exact Or.inr h2

lemma keys_mapSet_nodup (m : List (String × Conn)) (k : String) (v : Conn)
    (hnd : (m.map Prod.fst).Nodup) : ((mapSet m k v).map Prod.fst).Nodup := by
  induction m with
  | nil => simp [mapSet]
  | cons kv rest ih =>
    obtain ⟨k2, v2⟩ := kv
    simp only [List.map_cons, List.nodup_cons] at hnd
    by_cases hk : k2 = k
    · subst hk
      have hms : mapSet ((k2, v2) :: rest) k2 v = (k2, v) :: rest := by
        simp [mapSet]
      rw [hms]
      simp only [List.map_cons, List.nodup_cons]
      exact ⟨hnd.1, hnd.2⟩
    · simp only [mapSet, if_neg hk, List.map_cons, List.nodup_cons]
      refine ⟨fun hmem => ?_, ih hnd.2⟩
      rcases mem_keys_mapSet rest k v k2 hmem with h2 | h2
      · exact hnd.1 h2
      · exact hk h2

lemma mapGet_mapSet_self (m : List (String × Conn)) (k : String) (v : Conn) :
    mapGet (mapSet m k v) k = some v := by
  induction m with
  | nil => simp [mapSet, mapGet]
  | cons kv rest ih =>
    obtain ⟨k2, v2⟩ := kv
    by_cases h : k2 = k
    · simp [mapSet, mapGet, h]
    · simp [mapSet, mapGet, h, ih]

lemma mapGet_mapSet_ne (m : List (String × Conn)) (k k2 : String) (v : Conn)
    (h : k2 ≠ k) : mapGet (mapSet m k v) k2 = mapGet m k2 := by
  induction m with
  | nil => simp [mapSet, mapGet, Ne.symm h]
  | cons kv rest ih =>
    obtain ⟨k3, v3⟩ := kv
    by_cases h3 : k3 = k
    · subst h3
      simp [mapSet, mapGet, Ne.symm h]
    · simp only [mapSet, if_neg h3, mapGet]
      by_cases h4 : k3 = k2
      · simp [h4]
      · simp [h4, ih]

lemma map_eraseIdx (f : User → String) :
    ∀ (l : List User) (i : Nat), (l.eraseIdx i).map f = (l.map f).eraseIdx i := by
  intro l
  induction l with
  | nil => intro i; rfl
  | cons a rest ih =>
    intro i
    cases i with
    | zero => rfl
    | succ n => simp [List.eraseIdx, ih n]

lemma nodup_getElem?_not_mem_eraseIdx {α : Type} :
    ∀ (l : List α) (i : Nat) (a : α), l.Nodup → l[i]? = some a → a ∉ l.eraseIdx i := by
  intro l
  induction l with
  | nil => intro i a _ h; simp at h
  | cons x rest ih =>
    intro i a hnd h
    simp only [List.nodup_cons] at hnd
    cases i with
    | zero =>
      simp only [List.getElem?_cons_zero, Option.some.injEq] at h
      subst h
      simpa [List.eraseIdx] using hnd.1
    | succ n =>
      simp only [List.getElem?_cons_succ] at h
      have hmem : a ∈ rest := List.getElem?_mem h
      have hax : a ≠ x := fun hax => hnd.1 (hax ▸ hmem)
      simp only [List.eraseIdx, List.mem_cons]
      push_neg
      exact ⟨hax, ih n a hnd.2 h⟩

lemma findPartnerAux_none (u : User) :
    ∀ (pool : List User) (i : Nat), findPartnerAux u pool i = none →
      ∀ c ∈ pool, isCompatible u c = false := by
  intro pool
  induction pool with
  | nil => intro i _ c hc; exact absurd hc (List.not_mem_nil c)
  | cons a rest ih =>
    intro i h c hc
    rw [findPartnerAux] at h
    cases hcomp : isCompatible u a with
    | true => rw [hcomp] at h; simp at h
    | false =>
      rw [hcomp] at h
      simp only [Bool.false_eq_true, if_false] at h
      rcases List.mem_cons.mp hc with rfl | hc2
      · exact hcomp
      · exact ih (i + 1) h c hc2

lemma findPartnerAux_some (u : User) :
    ∀ (pool : List User) (i j : Nat) (p : User),
      findPartnerAux u pool i = some (p, j) →
      i ≤ j ∧ pool[j - i]? = some p ∧ isCompatible u p = true ∧
        (pool.take (j - i)).all (fun c => !isCompatible u c) = true := by
  intro pool
  induction pool with
  | nil => intro i j p h; rw [findPartnerAux] at h; cases h
  | cons a rest ih =>
    intro i j p h
    rw [findPartnerAux] at h
    cases hcomp : isCompatible u a with
    | true =>
      rw [hcomp] at h
      simp only [if_true, Option.some.injEq, Prod.mk.injEq] at h
      obtain ⟨rfl, rfl⟩ := h
      refine ⟨le_refl i, ?_, hcomp, ?_⟩
      · simp
      · simp
    | false =>
      rw [hcomp] at h
      simp only [Bool.false_eq_true, if_false] at h
      obtain ⟨hle, hget, hc2, hall⟩ := ih (i + 1) j p h
      have hij : i + 1 ≤ j := hle
      have hji : j - i = (j - (i + 1)) + 1 := by omega
      refine ⟨by omega, ?_, hc2, ?_⟩
      · rw [hji]
        simpa using hget
      · rw [hji]
        simp only [List.take_succ_cons, List.all_cons, hcomp, Bool.not_false, Bool.true_and]
        exact hall

lemma findPartner_none (u : User) (pool : List User)
    (h : findPartner u pool = none) : ∀ c ∈ pool, isCompatible u c = false :=
  findPartnerAux_none u pool 0 h

lemma findPartner_some (u : User) (pool : List User) (p : User) (j : Nat)
    (h : findPartner u pool = some (p, j)) :
    pool[j]? = some p ∧ isCompatible u p = true ∧
      (pool.take j).all (fun c => !isCompatible u c) = true := by
  obtain ⟨_, hget, hc, hall⟩ := findPartnerAux_some u pool 0 j p h
  simp only [Nat.sub_zero] at hget hall
  exact ⟨hget, hc, hall⟩

/-- C2: the `'waiting'` branch scans the pool in insertion order and takes the
first compatible candidate: every entry strictly before the selected index is
incompatible, the selected entry is compatible, and the resulting pool is the
original with the selected index spliced out (possibly with the entrant
appended, in the stale-partner fallback), so every other entry keeps its
original relative order; when no entry is compatible the entrant is appended
to the end of the pool and no delivery is emitted. -/
theorem enterWaiting_first_fit (s : ServerState) (clientId : String) (payload : Prefs) :
    (findPartner ⟨clientId, payload⟩ s.waitingUsers = none →
      handleWaiting s clientId payload =
        (⟨s.clients, s.waitingUsers ++ [⟨clientId, payload⟩]⟩, []) ∧
      s.waitingUsers.all (fun c => !isCompatible ⟨clientId, payload⟩ c) = true) ∧
    (∀ (partner : User) (i : Nat),
      findPartner ⟨clientId, payload⟩ s.waitingUsers = some (partner, i) →
      s.waitingUsers[i]? = some partner ∧
      isCompatible ⟨clientId, payload⟩ partner = true ∧
      (s.waitingUsers.take i).all (fun c => !isCompatible ⟨clientId, payload⟩ c) = true ∧
      ((handleWaiting s clientId payload).1.waitingUsers = s.waitingUsers.eraseIdx i ∨
       (handleWaiting s clientId payload).1.waitingUsers =
         s.waitingUsers.eraseIdx i ++ [⟨clientId, payload⟩])) := by
  constructor
  · intro h
    constructor
    · simp [handleWaiting, h]
    · rw [List.all_eq_true]
      intro c hc
      rw [findPartner_none _ _ h c hc]
      rfl
  · intro partner i h
    obtain ⟨hget, hc, hall⟩ := findPartner_some _ _ _ _ h
    refine ⟨hget, hc, hall, ?_⟩
    rw [handleWaiting]
    simp only [h]
    cases hm : mapGet s.clients partner.id with
    | some pc =>
      cases hopen : pc.isOpen with
      | true => simp [hm, hopen]
      | false => simp [hm, hopen]
    | none => simp [hm]

/-- C9: on a successful match the engine emits exactly two delivery
instructions: the waiting candidate receives `paired` with the entrant's id
and `isInitiator: true`, and the entrant receives `paired` with the
candidate's id and `isInitiator: false`. -/
theorem match_emits_two_paired (s : ServerState) (clientId : String) (payload : Prefs)
    (partner : User) (i : Nat) (pc : Conn)
    (h : findPartner ⟨clientId, payload⟩ s.waitingUsers = some (partner, i))
    (hpc : mapGet s.clients partner.id = some pc)
    (hopen : pc.isOpen = true) :
    (handleWaiting s clientId payload).2 =
      [⟨partner.id, OutMsg.paired clientId true⟩,
       ⟨clientId, OutMsg.paired partner.id false⟩] := by
  rw [handleWaiting]
  simp [h, hpc, hopen]

lemma handleMessage_state_eq (s : ServerState) (clientId : String) (data : InMsg)
    (h : data.type ≠ "waiting") : (handleMessage s clientId data).1 = s := by
  rw [handleMessage]
  by_cases he : data.type = ""
  · simp [he]
  · simp only [he, if_neg, if_false]
    simp [h]

/-- C6: for a relayable message type, if the target id resolves to an open
connection the engine emits exactly one delivery of the original kind to the
target, carrying the original body with the `from` field overwritten by the
sender's id (whatever the client supplied), and leaves the state unchanged;
if the target is absent, no delivery is emitted and the handler returns
normally with the state unchanged. -/
theorem relay_delivery_contract (s : ServerState) (clientId : String) (data : InMsg)
    (hrelay : relayTypes.contains data.type = true) :
    (∀ t : Conn, mapGet s.clients data.toId = some t → t.isOpen = true →
      handleMessage s clientId data =
        (s, [⟨data.toId, OutMsg.relayed { data with fromField := some clientId }⟩]) ∧
      (InMsg.mk data.type data.payload data.toId (some clientId) data.body).type = data.type ∧
      (InMsg.mk data.type data.payload data.toId (some clientId) data.body).body = data.body ∧
      (InMsg.mk data.type data.payload data.toId (some clientId) data.body).fromField =
        some clientId) ∧
    (mapGet s.clients data.toId = none →
      handleMessage s clientId data = (s, [])) := by
  have hne : data.type ≠ "" := by
    intro h
    rw [h] at hrelay
    exact absurd hrelay (by decide)
  have hnw : data.type ≠ "waiting" := by
    intro h
    rw [h] at hrelay
    exact absurd hrelay (by decide)
  have hmem : data.type ∈ relayTypes := by simpa using hrelay
  constructor
  · intro t ht hopen
    refine ⟨?_, rfl, rfl, rfl⟩
    rw [handleMessage]
    simp [hne, hnw, hmem, ht, hopen]
  · intro ht
    rw [handleMessage]
    simp [hne, hnw, hmem, ht]

/-- C5 (amended): the backend implements no Skip operation — an inbound
message of type `'skip'` matches neither the `'waiting'` branch nor the relay
list, so it leaves the state unchanged (no `partnerId` is cleared, the pool
is untouched) and emits no delivery. -/
theorem skip_message_ignored (s : ServerState) (clientId : String) (data : InMsg)
    (h : data.type = "skip") :
    handleMessage s clientId data = (s, []) := by
  rw [handleMessage]
  simp [h, relayTypes]

/-- C3 (amended): partner symmetry holds at the moment a pairing is committed
and is restored on leave — immediately after a successful match between
distinct connections both `partnerId` fields point at each other, and when a
paired connection closes, the leaver is removed from the registry and the
surviving partner's `partnerId` is cleared.  (It is not an invariant of every
reachable state: a paired connection that sends another `'waiting'` message
can be re-paired while its old partner still points at it, see the
counterexample.) -/
theorem pairing_commit_and_close_symmetry :
    (∀ (s : ServerState) (clientId : String) (payload : Prefs) (partner : User) (i : Nat)
        (wc pc : Conn),
      findPartner ⟨clientId, payload⟩ s.waitingUsers = some (partner, i) →
      mapGet s.clients clientId = some wc →
      mapGet s.clients partner.id = some pc →
      pc.isOpen = true →
      partner.id ≠ clientId →
      (mapGet (handleWaiting s clientId payload).1.clients clientId).map Conn.partnerId =
        some (some partner.id) ∧
      (mapGet (handleWaiting s clientId payload).1.clients partner.id).map Conn.partnerId =
        some (some clientId)) ∧
    (∀ (s : ServerState) (clientId pid : String) (c pc : Conn),
      (s.clients.map Prod.fst).Nodup →
      mapGet s.clients clientId = some c →
      c.partnerId = some pid →
      pid ≠ clientId →
      mapGet (mapDelete s.clients clientId) pid = some pc →
      mapGet (handleClose s clientId).1.clients clientId = none ∧
      (mapGet (handleClose s clientId).1.clients pid).map Conn.partnerId = some none) := by
  constructor
  · intro s clientId payload partner i wc pc hfp hwc hpc hopen hne
    rw [handleWaiting]
    simp only [hfp, hpc, hopen, if_true]
    constructor
    · rw [mapGet_mapUpdate_ne _ _ _ _ (Ne.symm hne), mapGet_mapUpdate_self, hwc]
      rfl
    · rw [mapGet_mapUpdate_self, mapGet_mapUpdate_ne _ _ _ _ hne, hpc]
      rfl
  · intro s clientId pid c pc hnd hc hp hne hpc
    rw [handleClose]
    simp only [hc, hp, hpc]
    constructor
    · rw [mapGet_mapUpdate_ne _ _ _ _ (Ne.symm hne)]
      exact mapGet_mapDelete_self s.clients clientId hnd
    · rw [mapGet_mapUpdate_self, hpc]
      rfl

/-- C4 (amended): when a paired connection leaves, the surviving partner (if
still present) receives exactly one `disconnected` delivery stamped with the
leaver's id and has its `partnerId` cleared, and the leaver is removed from
both the registry and the waiting pool; however the partner is NOT
re-inserted into the waiting pool — the pool merely loses the leaver's
entries. -/
theorem leave_partner_notification (s : ServerState) (clientId pid : String) (c pc : Conn)
    (hnd : (s.clients.map Prod.fst).Nodup)
    (hc : mapGet s.clients clientId = some c)
    (hp : c.partnerId = some pid)
    (hne : pid ≠ clientId)
    (hpc : mapGet (mapDelete s.clients clientId) pid = some pc) :
    (handleClose s clientId).2 = [⟨pid, OutMsg.disconnected clientId⟩] ∧
    (mapGet (handleClose s clientId).1.clients pid).map Conn.partnerId = some none ∧
    mapGet (handleClose s clientId).1.clients clientId = none ∧
    (handleClose s clientId).1.waitingUsers =
      s.waitingUsers.filter (fun u => u.id != clientId) := by
  rw [handleClose]
  simp only [hc, hp, hpc]
  refine ⟨trivial, ?_, ?_, trivial⟩
  · rw [mapGet_mapUpdate_self, hpc]
    rfl
  · rw [mapGet_mapUpdate_ne _ _ _ _ (Ne.symm hne)]
    exact mapGet_mapDelete_self s.clients clientId hnd

/-- Everyone-matches preference payload (gender `"m"`, preference `"any"`,
no interest). -/
def anyPrefs : Prefs := ⟨"m", "any", ""⟩

/-- Preference payload of a user who wants the same gender `"f"`. -/
def exPrefsSame : Prefs := ⟨"f", "same", ""⟩

/-- Preference payload of a user of gender `"f"` with no constraints. -/
def exPrefsAnyF : Prefs := ⟨"f", "any", ""⟩

/-- Preference payload of the example entrant E (gender `"m"`, any). -/
def exPrefsE : Prefs := ⟨"m", "any", ""⟩

/-- Example waiting users U1, U2 (incompatible with E) and U3 (compatible). -/
def exU1 : User := ⟨"U1", exPrefsSame⟩

/-- Second incompatible waiting user of the pool-order example. -/
def exU2 : User := ⟨"U2", exPrefsSame⟩

/-- The compatible third waiting user of the pool-order example. -/
def exU3 : User := ⟨"U3", exPrefsAnyF⟩

/-- Example state: U1, U2, U3 waiting (in that order), E connected. -/
def exState : ServerState :=
  ⟨[("U1", ⟨none, true⟩), ("U2", ⟨none, true⟩), ("U3", ⟨none, true⟩), ("E", ⟨none, true⟩)],
   [exU1, exU2, exU3]⟩

/-- Example state: A and B connected and paired with each other. -/
def pairedState : ServerState :=
  ⟨[("A", Conn.mk (some "B") true), ("B", Conn.mk (some "A") true)], []⟩

/-- A `'skip'`-typed inbound message (the spec's Skip operation). -/
def skipMsg : InMsg := ⟨"skip", ⟨"", "", ""⟩, "B", none, ""⟩

/-- An `'offer'` relay message addressed to B with a client-supplied (forged)
`from` field. -/
def offerMsg : InMsg := ⟨"offer", ⟨"", "", ""⟩, "B", some "FAKE", "sdp"⟩

/-- A `'waiting'` message carrying the everyone-matches payload. -/
def waitingMsg : InMsg := ⟨"waiting", anyPrefs, "", none, ""⟩

/-- Witness for C2 at the spec's pool-order example: pool `[U1, U2, U3]`
where only U3 is compatible with the new entrant E. -/
theorem enterWaiting_first_fit_witness :
    exState.waitingUsers[2]? = some exU3 ∧
    isCompatible ⟨"E", exPrefsE⟩ exU3 = true ∧
    (exState.waitingUsers.take 2).all (fun c => !isCompatible ⟨"E", exPrefsE⟩ c) = true ∧
    ((handleWaiting exState "E" exPrefsE).1.waitingUsers = exState.waitingUsers.eraseIdx 2 ∨
     (handleWaiting exState "E" exPrefsE).1.waitingUsers =
       exState.waitingUsers.eraseIdx 2 ++ [⟨"E", exPrefsE⟩]) :=
  (enterWaiting_first_fit exState "E" exPrefsE).2 exU3 2 (by decide)

/-- Witness for C9: the match of E with U3 emits exactly the two `paired`
notices. -/
theorem match_emits_two_paired_witness :
    (handleWaiting exState "E" exPrefsE).2 =
      [⟨exU3.id, OutMsg.paired "E" true⟩, ⟨"E", OutMsg.paired exU3.id false⟩] :=
  match_emits_two_paired exState "E" exPrefsE exU3 2 ⟨none, true⟩ (by decide) (by decide) rfl

/-- Witness for C3 (amended): the commit of the E-U3 match sets both partner
links, and B leaving the A-B pair removes B and clears A's link. -/
theorem pairing_commit_and_close_symmetry_witness :
    ((mapGet (handleWaiting exState "E" exPrefsE).1.clients "E").map Conn.partnerId =
        some (some exU3.id) ∧
     (mapGet (handleWaiting exState "E" exPrefsE).1.clients exU3.id).map Conn.partnerId =
        some (some "E")) ∧
    (mapGet (handleClose pairedState "B").1.clients "B" = none ∧
     (mapGet (handleClose pairedState "B").1.clients "A").map Conn.partnerId = some none) :=
  ⟨pairing_commit_and_close_symmetry.1 exState "E" exPrefsE exU3 2 ⟨none, true⟩ ⟨none, true⟩
      (by decide) (by decide) (by decide) rfl (by decide),
   pairing_commit_and_close_symmetry.2 pairedState "B" "A" (Conn.mk (some "A") true)
      (Conn.mk (some "B") true) (by decide) (by decide) rfl (by decide) (by decide)⟩

/-- Witness for C4 (amended): B leaving the A-B pair notifies A exactly once,
clears A's link, removes B, and leaves the pool without any re-insertion. -/
theorem leave_partner_notification_witness :
    (handleClose pairedState "B").2 = [⟨"A", OutMsg.disconnected "B"⟩] ∧
    (mapGet (handleClose pairedState "B").1.clients "A").map Conn.partnerId = some none ∧
    mapGet (handleClose pairedState "B").1.clients "B" = none ∧
    (handleClose pairedState "B").1.waitingUsers =
      pairedState.waitingUsers.filter (fun u => u.id != "B") :=
  leave_partner_notification pairedState "B" "A" (Conn.mk (some "A") true)
    (Conn.mk (some "B") true) (by decide) (by decide) rfl (by decide) (by decide)

/-- Witness for C5 (amended): a concrete `'skip'` message in a paired state is
ignored. -/
theorem skip_message_ignored_witness :
    handleMessage pairedState "A" skipMsg = (pairedState, []) :=
  skip_message_ignored pairedState "A" skipMsg rfl

/-- Example state with only A connected (relay target B absent). -/
def soloState : ServerState := ⟨[("A", Conn.mk none true)], []⟩

/-- Witness for C6: a concrete `offer` relay is delivered once with `from`
overwritten to the sender, and the same relay towards an absent target emits
nothing. -/
theorem relay_delivery_contract_witness :
    (handleMessage pairedState "A" offerMsg =
      (pairedState, [⟨"B", OutMsg.relayed { offerMsg with fromField := some "A" }⟩])) ∧
    (handleMessage soloState "A" offerMsg = (soloState, [])) :=
  ⟨((relay_delivery_contract pairedState "A" offerMsg (by decide)).1
      (Conn.mk (some "A") true) (by decide) rfl).1,
   (relay_delivery_contract soloState "A" offerMsg (by decide)).2 (by decide)⟩

/-- Counterexample to C7 as stated: a connection with a concrete preference
payload is compatible with itself — `isCompatible` never inspects ids and
the claim that it returns `false` on identical arguments fails. -/
theorem self_compat_cex :
    isCompatible ⟨"A", ⟨"m", "same", "x"⟩⟩ ⟨"A", ⟨"m", "same", "x"⟩⟩ = true := by
  decide

/-- Example state whose pool already holds the entrant's own id. -/
def selfPoolState : ServerState := ⟨[("A", Conn.mk none true)], [⟨"A", anyPrefs⟩]⟩

/-- C7 (amended): `isCompatible` with the same connection as both arguments
always returns `true` (the predicate never inspects ids), and consequently a
connection whose id is already in the waiting pool IS matched to itself by a
subsequent EnterWaiting with the same payload: its `partnerId` is set to its
own id and both `paired` notices go to the same client. -/
theorem isCompatible_self_true :
    (∀ A : User, isCompatible A A = true) ∧
    handleWaiting selfPoolState "A" anyPrefs =
      (⟨[("A", Conn.mk (some "A") true)], []⟩,
       [⟨"A", OutMsg.paired "A" true⟩, ⟨"A", OutMsg.paired "A" false⟩]) :=
  ⟨isCompatible_self, by decide⟩

/-- Trace in which A and B get paired, C starts waiting, and A (still marked
as B's partner) re-enters the waiting flow and is re-paired with C. -/
def cexEvents3 : List Event :=
  [.connect "A", .connect "B", .connect "C",
   .message "A" waitingMsg, .message "B" waitingMsg,
   .message "C" waitingMsg, .message "A" waitingMsg]

/-- Counterexample to C3 as stated: in the reachable state after `cexEvents3`,
B's `partnerId` is A and A is still present, but A's `partnerId` is C, not B —
the symmetry invariant fails in a reachable state. -/
theorem partner_symmetry_not_invariant_cex :
    mapGet (runTrace initState cexEvents3).1.clients "B" = some (Conn.mk (some "A") true) ∧
    mapGet (runTrace initState cexEvents3).1.clients "A" = some (Conn.mk (some "C") true) ∧
    (some "C" : Option String) ≠ some "B" := by
  decide

/-- Counterexample to C4 as stated: B leaves while paired with A; A receives
the single `disconnected` notice and its link is cleared, but A is NOT
re-inserted into the waiting pool — the resulting pool is empty. -/
theorem leave_no_reinsert_cex :
    handleClose pairedState "B" =
      (⟨[("A", Conn.mk none true)], []⟩, [⟨"A", OutMsg.disconnected "B"⟩]) := by
  decide

/-- Counterexample to C5 as stated: a `'skip'` message from the paired
connection A produces zero deliveries and no state change — no
`partnerSkipped` notice is emitted, neither `partnerId` is cleared, and A is
not re-entered into the pool. -/
theorem skip_not_implemented_cex :
    handleMessage pairedState "A" skipMsg = (pairedState, []) ∧
    mapGet pairedState.clients "A" = some (Conn.mk (some "B") true) := by
  decide

/-- Preference payloads with different interests. -/
def interestXPrefs : Prefs := ⟨"m", "any", "x"⟩

/-- Second interest payload, differing from `interestXPrefs`. -/
def interestYPrefs : Prefs := ⟨"m", "any", "y"⟩

/-- Trace in which A enters the waiting pool twice with differing interests. -/
def cexEvents8 : List Event :=
  [.connect "A", .message "A" ⟨"waiting", interestXPrefs, "", none, ""⟩,
   .message "A" ⟨"waiting", interestYPrefs, "", none, ""⟩]

/-- Counterexample to C8 as stated: a client that sends `'waiting'` twice with
different interests ends up in the waiting pool twice, so the no-duplicate
pool invariant fails in a reachable state. -/
theorem pool_invariant_violated_cex :
    ((runTrace initState cexEvents8).1.waitingUsers.map User.id = ["A", "A"]) ∧
    ¬ ((runTrace initState cexEvents8).1.waitingUsers.map User.id).Nodup := by
  decide

/-- Decidable form of the pool-not-paired property: every waiting user whose
id still resolves in the registry has no partner set. -/
def pooledUnpaired (s : ServerState) : Bool :=
  s.waitingUsers.all (fun u =>
    match mapGet s.clients u.id with
    | some c => c.partnerId == none
    | none => true)

/-- Propositional reading of `pooledUnpaired`. -/
def PoolNotPaired (s : ServerState) : Prop :=
  ∀ u ∈ s.waitingUsers, ∀ c, mapGet s.clients u.id = some c → c.partnerId = none

lemma pooledUnpaired_iff (s : ServerState) :
    pooledUnpaired s = true ↔ PoolNotPaired s := by
  rw [pooledUnpaired, List.all_eq_true]
  constructor
  · intro h u hu c hc
    have := h u hu
    rw [hc] at this
    exact eq_of_beq this
  · intro h u hu
    cases hc : mapGet s.clients u.id with
    | some c =>
      have := h u hu c hc
      simp [this]
    | none => rfl

/-- The pool/registry sanity invariant of claim C8, strengthened with the
registry-key uniqueness that the JavaScript `Map` guarantees: registry keys
are distinct, no id appears twice in the waiting pool, and no pooled id
belongs to a paired connection. -/
def PoolInv (s : ServerState) : Prop :=
  (s.clients.map Prod.fst).Nodup ∧ (s.waitingUsers.map User.id).Nodup ∧
    pooledUnpaired s = true

lemma mem_eraseIdx_id_ne (pool : List User) (i : Nat) (partner : User)
    (hnd : (pool.map User.id).Nodup) (hget : pool[i]? = some partner) :
    ∀ u ∈ pool.eraseIdx i, u.id ≠ partner.id := by
  intro u hu heq
  have h1 : (pool.map User.id)[i]? = some partner.id := by
    rw [List.getElem?_map, hget]
    rfl
  have h2 : partner.id ∉ (pool.map User.id).eraseIdx i :=
    nodup_getElem?_not_mem_eraseIdx _ i _ hnd h1
  apply h2
  rw [← map_eraseIdx]
  exact heq ▸ List.mem_map_of_mem User.id hu

lemma handleConnection_inv (s : ServerState) (clientId : String) (hinv : PoolInv s) :
    PoolInv (handleConnection s clientId).1 := by
  obtain ⟨hkeys, hpool, hpnp⟩ := hinv
  rw [pooledUnpaired_iff] at hpnp
  have hred : (handleConnection s clientId).1 =
      ⟨mapSet s.clients clientId ⟨none, true⟩, s.waitingUsers⟩ := rfl
  rw [hred]
  refine ⟨keys_mapSet_nodup s.clients clientId ⟨none, true⟩ hkeys, hpool, ?_⟩
  rw [pooledUnpaired_iff]
  intro u hu c hc
  replace hu : u ∈ s.waitingUsers := hu
  replace hc : mapGet (mapSet s.clients clientId ⟨none, true⟩) u.id = some c := hc
  by_cases h : u.id = clientId
  · rw [h, mapGet_mapSet_self] at hc
    cases hc
    rfl
  · rw [mapGet_mapSet_ne _ _ _ _ h] at hc
    exact hpnp u hu c hc

lemma pnp_delete_filter (s : ServerState) (clientId : String)
    (hpnp : PoolNotPaired s) :
    PoolNotPaired ⟨mapDelete s.clients clientId,
      s.waitingUsers.filter (fun u => u.id != clientId)⟩ := by
  intro u hu c hcc
  replace hu : u ∈ s.waitingUsers.filter (fun u => u.id != clientId) := hu
  replace hcc : mapGet (mapDelete s.clients clientId) u.id = some c := hcc
  have h := List.mem_filter.mp hu
  have hne : u.id ≠ clientId := by simpa using h.2
  rw [mapGet_mapDelete_ne _ _ _ hne] at hcc
  exact hpnp u h.1 c hcc

lemma handleClose_inv (s : ServerState) (clientId : String) (hinv : PoolInv s) :
    PoolInv (handleClose s clientId).1 := by
  obtain ⟨hkeys, hpool, hpnp⟩ := hinv
  rw [pooledUnpaired_iff] at hpnp
  have hfnodup : ((s.waitingUsers.filter (fun u => u.id != clientId)).map User.id).Nodup :=
    hpool.sublist ((List.filter_sublist _).map User.id)
  have hdnodup : ((mapDelete s.clients clientId).map Prod.fst).Nodup :=
    keys_mapDelete_nodup s.clients clientId hkeys
  cases hc : mapGet s.clients clientId with
  | none =>
    have hred : (handleClose s clientId).1 =
        ⟨mapDelete s.clients clientId,
         s.waitingUsers.filter (fun u => u.id != clientId)⟩ := by
      rw [handleClose]
      simp only [hc]
    rw [hred]
    exact ⟨hdnodup, hfnodup,
      (pooledUnpaired_iff _).mpr (pnp_delete_filter s clientId hpnp)⟩
  | some c0 =>
    cases hp : c0.partnerId with
    | none =>
      have hred : (handleClose s clientId).1 =
          ⟨mapDelete s.clients clientId,
           s.waitingUsers.filter (fun u => u.id != clientId)⟩ := by
        rw [handleClose]
        simp only [hc, hp]
      rw [hred]
      exact ⟨hdnodup, hfnodup,
        (pooledUnpaired_iff _).mpr (pnp_delete_filter s clientId hpnp)⟩
    | some pid =>
      cases hm : mapGet (mapDelete s.clients clientId) pid with
      | none =>
        have hred : (handleClose s clientId).1 =
            ⟨mapDelete s.clients clientId,
             s.waitingUsers.filter (fun u => u.id != clientId)⟩ := by
          rw [handleClose]
          simp only [hc, hp, hm]
        rw [hred]
        exact ⟨hdnodup, hfnodup,
          (pooledUnpaired_iff _).mpr (pnp_delete_filter s clientId hpnp)⟩
      | some pc =>
        have hred : (handleClose s clientId).1 =
            ⟨mapUpdate (mapDelete s.clients clientId) pid
               (fun c => { c with partnerId := none }),
             s.waitingUsers.filter (fun u => u.id != clientId)⟩ := by
          rw [handleClose]
          simp only [hc, hp, hm]
        rw [hred]
        refine ⟨?_, hfnodup, ?_⟩
        · rw [keys_mapUpdate]
          exact hdnodup
        · rw [pooledUnpaired_iff]
          intro u hu c hcc
          replace hu : u ∈ s.waitingUsers.filter (fun u => u.id != clientId) := hu
          replace hcc : mapGet (mapUpdate (mapDelete s.clients clientId) pid
              (fun c => { c with partnerId := none })) u.id = some c := hcc
          have h := List.mem_filter.mp hu
          have hne : u.id ≠ clientId := by simpa using h.2
          by_cases hup : u.id = pid
          · rw [hup, mapGet_mapUpdate_self, hm] at hcc
            cases hcc
            rfl
          · rw [mapGet_mapUpdate_ne _ _ _ _ hup, mapGet_mapDelete_ne _ _ _ hne] at hcc
            exact hpnp u h.1 c hcc

lemma handleWaiting_inv (s : ServerState) (clientId : String) (payload : Prefs)
    (hinv : PoolInv s)
    (hfresh : clientId ∉ s.waitingUsers.map User.id)
    (hunp : ∀ c, mapGet s.clients clientId = some c → c.partnerId = none) :
    PoolInv (handleWaiting s clientId payload).1 := by
  obtain ⟨hkeys, hpool, hpnp⟩ := hinv
  rw [pooledUnpaired_iff] at hpnp
  cases hfp : findPartner ⟨clientId, payload⟩ s.waitingUsers with
  | none =>
    have hred : (handleWaiting s clientId payload).1 =
        ⟨s.clients, s.waitingUsers ++ [⟨clientId, payload⟩]⟩ := by
      rw [handleWaiting]
      simp only [hfp]
    rw [hred]
    refine ⟨hkeys, ?_, ?_⟩
    · rw [List.map_append, List.nodup_append]
      refine ⟨hpool, List.nodup_singleton _, ?_⟩
      intro a ha hb
      simp only [List.map_cons, List.map_nil, List.mem_singleton] at hb
      subst hb
      exact hfresh ha
    · rw [pooledUnpaired_iff]
      intro u hu c hc
      replace hu : u ∈ s.waitingUsers ++ [(⟨clientId, payload⟩ : User)] := hu
      replace hc : mapGet s.clients u.id = some c := hc
      rcases List.mem_append.mp hu with h | h
      · exact hpnp u h c hc
      · simp only [List.mem_singleton] at h
        subst h
        exact hunp c hc
  | some pr =>
    obtain ⟨partner, i⟩ := pr
    obtain ⟨hget, hcomp, -⟩ := findPartner_some _ _ _ _ hfp
    have hpartner_mem : partner ∈ s.waitingUsers := List.getElem?_mem hget
    have hpartner_id_mem : partner.id ∈ s.waitingUsers.map User.id :=
      List.mem_map_of_mem User.id hpartner_mem
    have hcne : clientId ≠ partner.id := fun h => hfresh (h ▸ hpartner_id_mem)
    have herased_nodup : ((s.waitingUsers.eraseIdx i).map User.id).Nodup :=
      hpool.sublist ((List.eraseIdx_sublist _ i).map User.id)
    have herased_ne : ∀ u ∈ s.waitingUsers.eraseIdx i, u.id ≠ partner.id :=
      mem_eraseIdx_id_ne _ i _ hpool hget
    have herased_mem : ∀ u ∈ s.waitingUsers.eraseIdx i, u ∈ s.waitingUsers :=
      fun u hu => (List.eraseIdx_sublist _ i).subset hu
    have herased_ne_client : ∀ u ∈ s.waitingUsers.eraseIdx i, u.id ≠ clientId :=
      fun u hu h => hfresh (h ▸ List.mem_map_of_mem User.id (herased_mem u hu))
    have happend_nodup :
        (((s.waitingUsers.eraseIdx i) ++ [(⟨clientId, payload⟩ : User)]).map User.id).Nodup := by
      rw [List.map_append, List.nodup_append]
      refine ⟨herased_nodup, List.nodup_singleton _, ?_⟩
      intro a ha hb
      simp only [List.map_cons, List.map_nil, List.mem_singleton] at hb
      subst hb
      rcases List.mem_map.mp ha with ⟨u, hu, hid⟩
      exact herased_ne_client u hu hid
    cases hm : mapGet s.clients partner.id with
    | some pc =>
      cases hopen : pc.isOpen with
      | true =>
        have hred : (handleWaiting s clientId payload).1 =
            ⟨mapUpdate (mapUpdate s.clients clientId
                (fun c => { c with partnerId := some partner.id })) partner.id
                (fun c => { c with partnerId := some clientId }),
             s.waitingUsers.eraseIdx i⟩ := by
          rw [handleWaiting]
          simp only [hfp, hm, hopen, if_true]
        rw [hred]
        refine ⟨?_, herased_nodup, ?_⟩
        · rw [keys_mapUpdate, keys_mapUpdate]
          exact hkeys
        · rw [pooledUnpaired_iff]
          intro u hu c hc
          replace hu : u ∈ s.waitingUsers.eraseIdx i := hu
          replace hc : mapGet (mapUpdate (mapUpdate s.clients clientId
              (fun c => { c with partnerId := some partner.id })) partner.id
              (fun c => { c with partnerId := some clientId })) u.id = some c := hc
          rw [mapGet_mapUpdate_ne _ _ _ _ (herased_ne u hu),
              mapGet_mapUpdate_ne _ _ _ _ (herased_ne_client u hu)] at hc
          exact hpnp u (herased_mem u hu) c hc
      | false =>
        have hred : (handleWaiting s clientId payload).1 =
            ⟨mapDelete s.clients partner.id,
             s.waitingUsers.eraseIdx i ++ [⟨clientId, payload⟩]⟩ := by
          rw [handleWaiting]
          simp only [hfp, hm, hopen, Bool.false_eq_true, if_false]
        rw [hred]
        refine ⟨keys_mapDelete_nodup _ _ hkeys, happend_nodup, ?_⟩
        rw [pooledUnpaired_iff]
        intro u hu c hc
        replace hu : u ∈ s.waitingUsers.eraseIdx i ++ [(⟨clientId, payload⟩ : User)] := hu
        replace hc : mapGet (mapDelete s.clients partner.id) u.id = some c := hc
        rcases List.mem_append.mp hu with h | h
        · rw [mapGet_mapDelete_ne _ _ _ (herased_ne u h)] at hc
          exact hpnp u (herased_mem u h) c hc
        · simp only [List.mem_singleton] at h
          subst h
          rw [mapGet_mapDelete_ne _ _ _ hcne] at hc
          exact hunp c hc
    | none =>
      have hred : (handleWaiting s clientId payload).1 =
          ⟨s.clients, s.waitingUsers.eraseIdx i ++ [⟨clientId, payload⟩]⟩ := by
        rw [handleWaiting]
        simp only [hfp, hm]
      rw [hred]
      refine ⟨hkeys, happend_nodup, ?_⟩
      rw [pooledUnpaired_iff]
      intro u hu c hc
      replace hu : u ∈ s.waitingUsers.eraseIdx i ++ [(⟨clientId, payload⟩ : User)] := hu
      replace hc : mapGet s.clients u.id = some c := hc
      rcases List.mem_append.mp hu with h | h
      · exact hpnp u (herased_mem u h) c hc
      · simp only [List.mem_singleton] at h
        subst h
        exact hunp c hc

lemma handleMessage_waiting_state (s : ServerState) (clientId : String) (data : InMsg)
    (h : data.type = "waiting") :
    (handleMessage s clientId data).1 = (handleWaiting s clientId data.payload).1 := by
  rw [handleMessage]
  simp [h]

/-- C8 (amended): the pool/registry invariant — distinct registry keys, no
duplicate id in the waiting pool, and no pooled id paired — is preserved by
every Join, by every non-`'waiting'` message (including every Relay), by
every Leave, and by every EnterWaiting whose entrant is not already waiting
and not already paired.  (Without the last condition it fails: see the
counterexample, where a repeated EnterWaiting duplicates a pool entry.) -/
theorem inv_preserved_with_fresh_entrant :
    (∀ (s : ServerState) (id2 : String), PoolInv s → PoolInv (step s (.connect id2)).1) ∧
    (∀ (s : ServerState) (id2 : String) (data : InMsg), data.type ≠ "waiting" →
      PoolInv s → PoolInv (step s (.message id2 data)).1) ∧
    (∀ (s : ServerState) (id2 : String) (data : InMsg), data.type = "waiting" →
      id2 ∉ s.waitingUsers.map User.id →
      (∀ c, mapGet s.clients id2 = some c → c.partnerId = none) →
      PoolInv s → PoolInv (step s (.message id2 data)).1) ∧
    (∀ (s : ServerState) (id2 : String), PoolInv s → PoolInv (step s (.close id2)).1) := by
  refine ⟨?_, ?_, ?_, ?_⟩
  · intro s id2 hinv
    exact handleConnection_inv s id2 hinv
  · intro s id2 data hne hinv
    show PoolInv (handleMessage s id2 data).1
    rw [handleMessage_state_eq s id2 data hne]
    exact hinv
  · intro s id2 data htype hfresh hunp hinv
    show PoolInv (handleMessage s id2 data).1
    rw [handleMessage_waiting_state s id2 data htype]
    exact handleWaiting_inv s id2 data.payload hinv hfresh hunp
  · intro s id2 hinv
    exact handleClose_inv s id2 hinv

/-- Witness for C8 (amended): each preserved step applied in the concrete
example state. -/
theorem inv_preserved_witness :
    PoolInv (step exState (.connect "F")).1 ∧
    PoolInv (step exState (.message "E" offerMsg)).1 ∧
    PoolInv (step exState (.message "E" waitingMsg)).1 ∧
    PoolInv (step exState (.close "U1")).1 :=
  ⟨inv_preserved_with_fresh_entrant.1 exState "F" ⟨by decide, by decide, by decide⟩,
   inv_preserved_with_fresh_entrant.2.1 exState "E" offerMsg (by decide)
     ⟨by decide, by decide, by decide⟩,
   inv_preserved_with_fresh_entrant.2.2.1 exState "E" waitingMsg rfl (by decide)
     (by
       intro c hc
       rw [show mapGet exState.clients "E" = some (Conn.mk none true) from rfl] at hc
       cases hc
       rfl)
     ⟨by decide, by decide, by decide⟩,
   inv_preserved_with_fresh_entrant.2.2.2 exState "U1" ⟨by decide, by decide, by decide⟩⟩
